import Mathlib

/-!
Shallow embedding of `src/ldrshrink.c` (majbthrd/ldrshrink), a command-line
tool that simplifies an ADSP-SC58x/BF70x loader stream by merging contiguous
blocks into chunks and re-serializing them.

Modelling conventions:
* machine `unsigned` (32-bit) values are `Nat` with explicit `% 2^32`
  where the C arithmetic can wrap;
* raw bytes are `Nat` (a byte read from the stream is `< 256`);
* uninitialized bytes (fresh `realloc` storage that is never written)
  are `Option Nat` entries equal to `none`;
* the input stream is a `List Nat` of bytes, the output stream is a
  `List (Option Nat)` (a `none` output byte arises only when the program
  writes realloc storage it never initialized);
* the struct layout follows the little-endian bit-field layout of
  `block_code_bitfield`: byte 0 = bcode (low nibble) | flags low nibble,
  byte 1 = flags bits 4..11, byte 2 = hdrchk, byte 3 = hdrsign, then the
  three little-endian 32-bit words.
-/

namespace Ldrshrink

/-- Flag constants from ldrshrink.c. -/
def BFLAG_FILL : Nat := 0x010

def BFLAG_INIT : Nat := 0x080

def BFLAG_IGNORE : Nat := 0x100

def BFLAG_FIRST : Nat := 0x400

def BFLAG_FINAL : Nat := 0x800

/-- CUSTOMIZE_SMALLEST_FILL_BLOCK from ldrshrink.c. -/
def SMALLEST_FILL_BLOCK : Nat := 256

/-- Modulus of 32-bit unsigned arithmetic. -/
def M32 : Nat := 4294967296

/-- 32-bit unsigned subtraction a - b (both operands < 2^32 in use). -/
def subM32 (a b : Nat) : Nat := (a + M32 - b % M32) % M32

/-- struct block_header_type: the logical fields of one 16-byte header. -/
structure BlockHeader where
  bcode : Nat
  flags : Nat
  hdrchk : Nat
  hdrsign : Nat
  target_address : Nat
  byte_count : Nat
  argument : Nat
deriving Repr, DecidableEq

/-- Little-endian 4-byte serialization of a 32-bit word. -/
def le4 (x : Nat) : List Nat :=
  [x % 256, x / 256 % 256, x / 65536 % 256, x / 16777216 % 256]

/-- Raw 16-byte layout of a header (bit-field packing of block_code plus
three little-endian words). -/
def headerBytes (h : BlockHeader) : List Nat :=
  [h.bcode % 16 + h.flags % 16 * 16, h.flags / 16 % 256, h.hdrchk % 256, h.hdrsign % 256]
    ++ le4 h.target_address ++ le4 h.byte_count ++ le4 h.argument

/-- XOR of all bytes of a list, exactly the loop of calc_header_checksum. -/
def xorAll (l : List Nat) : Nat := l.foldl Nat.xor 0

/-- Little-endian 32-bit word read at offset i of a byte list (the effect of
fread placing stream bytes into the unsigned fields of the struct). -/
def word32At (b : List Nat) (i : Nat) : Nat :=
  b.getD i 0 + 256 * b.getD (i + 1) 0 + 65536 * b.getD (i + 2) 0
    + 16777216 * b.getD (i + 3) 0

/-- Decoding 16 raw bytes into the logical header fields (the bit-field /
struct view of the bytes fread placed in memory). -/
def decodeHeader (b : List Nat) : BlockHeader where
  bcode := b.getD 0 0 % 16
  flags := b.getD 0 0 / 16 + 16 * b.getD 1 0
  hdrchk := b.getD 2 0
  hdrsign := b.getD 3 0
  target_address := word32At b 4
  byte_count := word32At b 8
  argument := word32At b 12

/-- write_header: zero the checksum field, recompute it as the XOR of the
resulting 16 bytes, store it, and emit the 16 bytes. -/
def encodeHeader (h : BlockHeader) : List Nat :=
  headerBytes { h with hdrchk := xorAll (headerBytes { h with hdrchk := 0 }) }

/-- struct chunk_list_type (minus the intrusive next pointer; the chunk list
is a `List Chunk` in discovery order).  `data = none` models a NULL data
pointer; a `none` byte inside a buffer models an uninitialized byte. -/
structure Chunk where
  address : Nat
  argument : Nat
  data : Option (List (Option Nat))
  length : Nat
  flags : Nat
deriving Repr, DecidableEq

/-- struct image_settings_type. -/
structure ImageSettings where
  hdrsign : Nat
  bcode : Nat
  entry_point : Nat
deriving Repr, DecidableEq

/-- The mutable state of main's loop: the chunk list, the captured settings,
the bcode/hdrsign bytes of the header variable (they survive into the
trailing Final header), the output bytes written so far, and the record of
chunk lists passed to write_image (for stating chunk-level properties). -/
structure LoopSt where
  list : List Chunk
  settings : ImageSettings
  lastBcode : Nat
  lastHdrsign : Nat
  out : List (Option Nat)
  flushes : List (List Chunk)
deriving Repr, DecidableEq

/-- Sum of per-chunk output sizes: the position accumulation loop of
write_image (16 per header plus the length when a data buffer exists). -/
def chunkSizes : List Chunk → Nat
  | [] => 0
  | c :: cs => 16 + (match c.data with | some _ => c.length | none => 0) + chunkSizes cs

/-- Total image size computed by write_image (position starts at one header
size for the synthetic leading header). -/
def imagePosition (cs : List Chunk) : Nat := 16 + chunkSizes cs

/-- fwrite(current->data, 1, current->length): the length bytes of the data
buffer (buffer capacity always equals length when data is present; the
padding keeps the definition total). -/
def chunkData (c : Chunk) : List (Option Nat) :=
  match c.data with
  | some d => (d ++ List.replicate c.length none).take c.length
  | none => []

/-- The per-chunk output loop of write_image: a header with the chunk's
flags/argument/length/address (bcode and hdrsign persist from the settings,
since the C code reuses the same hdr variable), followed by the data buffer
when one exists. -/
def chunkBlockBytes (bcode hdrsign : Nat) : List Chunk → List (Option Nat)
  | [] => []
  | c :: cs =>
      (encodeHeader ⟨bcode, c.flags, 0, hdrsign, c.address, c.length, c.argument⟩).map some
        ++ chunkData c ++ chunkBlockBytes bcode hdrsign cs

/-- write_image: the synthetic IGNORE|FIRST leading header whose argument is
the total image size, followed by each chunk's header and data in list
order. -/
def writeImage (cs : List Chunk) (s : ImageSettings) : List (Option Nat) :=
  (encodeHeader ⟨s.bcode, BFLAG_IGNORE ||| BFLAG_FIRST, 0, s.hdrsign,
      s.entry_point, 0, imagePosition cs⟩).map some
    ++ chunkBlockBytes s.bcode s.hdrsign cs

/-- Flush: write_image(output, list, &settings) followed by list = NULL.
The flushed chunk list is also recorded in `flushes`. -/
def doFlush (st : LoopSt) : LoopSt :=
  { st with list := [], out := st.out ++ writeImage st.list st.settings,
            flushes := st.flushes ++ [st.list] }

/-- The per-iteration match test of the merge scan, combining the three goto
not_a_match guards and the containment test: the header's flags hold no bit
other than BFLAG_FILL (mask ~0x10 on 32-bit unsigned), a FILL block is not
larger than the unroll threshold, the chunk under examination is not itself
a FILL chunk, and target_address lies in the closed interval
[address, address + length] (32-bit sum). -/
def blockMatches (hdr : BlockHeader) (c : Chunk) : Bool :=
  !(hdr.flags &&& 4294967279 != 0)
    && !((hdr.flags &&& BFLAG_FILL != 0) && (hdr.byte_count > SMALLEST_FILL_BLOCK))
    && !(c.flags &&& BFLAG_FILL != 0)
    && (hdr.target_address ≥ c.address)
    && (hdr.target_address ≤ (c.address + c.length) % M32)

/-- Index of the first chunk the scan loop stops at with a match (none when
the loop runs off the end of the list). -/
def findMatchIdx (hdr : BlockHeader) : List Chunk → Option Nat
  | [] => none
  | c :: cs =>
      if blockMatches hdr c then some 0 else (findMatchIdx hdr cs).map (· + 1)

/-- A freshly malloc'ed, zeroed chunk filled with the header's address,
argument and flags (data NULL, length 0). -/
def newChunk (hdr : BlockHeader) : Chunk :=
  ⟨hdr.target_address, hdr.argument, none, 0, hdr.flags⟩

/-- The find-or-insert phase: either the matched chunk's index, or the list
with a new chunk appended at the point where the scan stopped (the end) and
that new chunk's index. -/
def findOrCreate (hdr : BlockHeader) (l : List Chunk) : List Chunk × Nat :=
  match findMatchIdx hdr l with
  | some i => (l, i)
  | none => (l ++ [newChunk hdr], l.length)

/-- realloc(additional->data, additional->length + add): buffer capacity
equals length whenever data is non-NULL, so the reallocation appends `add`
uninitialized bytes; realloc(NULL, length + add) yields length + add
uninitialized bytes. -/
def reallocBuf (c : Chunk) (add : Nat) : List (Option Nat) :=
  match c.data with
  | none => List.replicate (c.length + add) none
  | some d => d ++ List.replicate add none

/-- memcpy of a byte sequence into a buffer at a given offset (writes past
the end of the buffer are dropped; such a write is unreachable UB in C). -/
def writeBytesAt (buf : List (Option Nat)) (off : Nat) : List (Option Nat) → List (Option Nat)
  | [] => buf
  | b :: bs => writeBytesAt (buf.set off b) (off + 1) bs

/-- The Fill unroll loop: while byte_count >= 4, memcpy the 4 little-endian
bytes of argument and advance (the trailing remainder under 4 bytes is never
written). -/
def writeFill : List (Option Nat) → Nat → Nat → Nat → List (Option Nat)
  | buf, off, bc + 4, arg =>
      writeFill (writeBytesAt buf off ((le4 arg).map some)) (off + 4) bc arg
  | buf, _, _, _ => buf

/-- The extension/write step on the chunk `additional` (matched or fresh):
when (target_address + byte_count) exceeds (address + length) in 32-bit
arithmetic the chunk grows by the difference — a Fill source unrolls its
argument word only when the chunk is not itself a Fill chunk, a non-Fill
source freads the grown bytes from the stream — otherwise nothing changes
(the overwrite-warning path).  Returns the updated chunk and the number of
stream bytes consumed. -/
def extendChunk (hdr : BlockHeader) (rest : List Nat) (c : Chunk) : Chunk × Nat :=
  if (hdr.target_address + hdr.byte_count) % M32 > (c.address + c.length) % M32 then
    let add := (hdr.target_address + hdr.byte_count) % M32 - (c.address + c.length) % M32
    if hdr.flags &&& BFLAG_FILL != 0 then
      if c.flags &&& BFLAG_FILL != 0 then
        ({ c with length := (c.length + add) % M32 }, 0)
      else
        let buf := writeFill (reallocBuf c add) (subM32 hdr.target_address c.address)
          hdr.byte_count hdr.argument
        ({ c with data := some buf, length := (c.length + add) % M32 }, 0)
    else
      let buf := writeBytesAt (reallocBuf c add) (subM32 hdr.target_address c.address)
        ((rest.take add).map some)
      ({ c with data := some buf, length := (c.length + add) % M32 }, min add rest.length)
  else (c, 0)

/-- One normal/Fill block: find or create the chunk, then extend it.
Returns the updated state and the number of payload bytes consumed. -/
def mergeBlock (hdr : BlockHeader) (rest : List Nat) (st : LoopSt) : LoopSt × Nat :=
  let fc := findOrCreate hdr st.list
  let ec := extendChunk hdr rest (fc.1.getD fc.2 (newChunk hdr))
  ({ st with list := fc.1.set fc.2 ec.1 }, ec.2)

/-- Outcome of main's while loop: a failed checksum (return -1), end of
input (fread returned 0), or a Final block (break). -/
inductive RunResult where
  | chkErr (st : LoopSt)
  | eof (st : LoopSt)
  | fin (st : LoopSt)
deriving Repr, DecidableEq

/-- When fread hits end of input with 0 < k < 16 bytes left it still copies
those k bytes into the header variable before returning 0; only the bcode
and hdrsign bytes can matter afterwards (for the trailing Final header). -/
def patchPartial (pb : List Nat) (st : LoopSt) : LoopSt :=
  { st with
    lastBcode := if 1 ≤ pb.length then pb.getD 0 0 % 16 else st.lastBcode,
    lastHdrsign := if 4 ≤ pb.length then pb.getD 3 0 else st.lastHdrsign }

/-- main's while loop.  The fuel argument only bounds the number of
iterations; every iteration consumes at least 16 input bytes, so fuel equal
to the input length never runs out (ldrshrink below supplies that). -/
def runLoop : Nat → List Nat → LoopSt → RunResult
  | 0, input, st => .eof (patchPartial input st)
  | fuel + 1, input, st =>
    if input.length < 16 then .eof (patchPartial input st)
    else
      let hb := input.take 16
      let rest := input.drop 16
      if xorAll hb != 0 then .chkErr st
      else
        let hdr := decodeHeader hb
        let st1 := { st with lastBcode := hdr.bcode, lastHdrsign := hdr.hdrsign }
        let st2 := if hdr.flags &&& (BFLAG_FIRST ||| BFLAG_FINAL) != 0 then
            (if st1.list ≠ [] then doFlush st1 else st1) else st1
        if hdr.flags &&& BFLAG_FINAL != 0 then .fin st2
        else if hdr.flags &&& BFLAG_FIRST != 0 then
          runLoop fuel rest
            { st2 with settings := ⟨hdr.hdrsign, hdr.bcode, hdr.target_address⟩ }
        else if hdr.flags &&& BFLAG_IGNORE != 0 then
          runLoop fuel (rest.drop hdr.byte_count) st2
        else
          let p := mergeBlock hdr rest st2
          let st3 := if hdr.flags &&& BFLAG_INIT != 0 then
              (if p.1.list ≠ [] then doFlush p.1 else p.1) else p.1
          runLoop fuel (rest.drop p.2) st3

/-- The trailing Final header written after the loop: flags = BFLAG_FINAL,
target_address = settings.entry_point, byte_count = 0, argument = 0; the
bcode and hdrsign bytes are whatever the header variable last held. -/
def trailerHeader (st : LoopSt) : BlockHeader :=
  ⟨st.lastBcode, BFLAG_FINAL, 0, st.lastHdrsign, st.settings.entry_point, 0, 0⟩

/-- The whole program on an input byte stream, starting from a given state
(the initial settings / header bytes are indeterminate stack contents in C,
so they are parameters).  Result: exit status, output bytes, and the record
of flushed chunk lists. -/
def ldrshrink (input : List Nat) (st0 : LoopSt) :
    Int × List (Option Nat) × List (List Chunk) :=
  match runLoop input.length input st0 with
  | .chkErr st => (-1, st.out, st.flushes)
  | .eof st => (0, st.out ++ (encodeHeader (trailerHeader st)).map some, st.flushes)
  | .fin st => (0, st.out ++ (encodeHeader (trailerHeader st)).map some, st.flushes)

/-- A fresh program state: empty chunk list and output; the indeterminate
initial settings and header bytes are explicit parameters. -/
def initSt (s : ImageSettings) (b hs : Nat) : LoopSt := ⟨[], s, b, hs, [], []⟩

/-! ### Spec-side definitions (following the claims' wording, for the
refinement claims C4 and C9) -/

/-- Spec wording: the provisos on the incoming block — its flags contain no
bit other than FILL, and when FILL is set, byteCount is at most 256. -/
def provisosOK (hdr : BlockHeader) : Bool :=
  !(hdr.flags &&& 4294967279 != 0)
    && !((hdr.flags &&& BFLAG_FILL != 0) && (hdr.byte_count > SMALLEST_FILL_BLOCK))

/-- Spec wording: a chunk qualifies when it is not a Fill chunk and its
closed interval [address, address + length] contains targetAddress. -/
def specMatch (hdr : BlockHeader) (c : Chunk) : Bool :=
  (c.flags &&& BFLAG_FILL == 0) && (c.address ≤ hdr.target_address)
    && (hdr.target_address ≤ (c.address + c.length) % M32)

/-- Spec wording: index of the first qualifying chunk in list order. -/
def specFindIdx (hdr : BlockHeader) : List Chunk → Option Nat
  | [] => none
  | c :: cs => if specMatch hdr c then some 0 else (specFindIdx hdr cs).map (· + 1)

/-- Spec wording: total image size = one header size plus, per chunk, header
size plus chunk.length when the chunk owns a data buffer, else header size
only. -/
def specTotalSize (cs : List Chunk) : Nat :=
  16 + (cs.map (fun c => 16 + (if c.data.isSome then c.length else 0))).sum

/-- Spec wording: each chunk is written as a header carrying its flags,
argument, byteCount = length and targetAddress = address, followed by its
data buffer exactly when it owns one. -/
def specChunksOut (bcode hdrsign : Nat) : List Chunk → List (Option Nat)
  | [] => []
  | c :: cs =>
      (encodeHeader ⟨bcode, c.flags, 0, hdrsign, c.address, c.length, c.argument⟩).map some
        ++ (match c.data with | some d => d | none => []) ++ specChunksOut bcode hdrsign cs

/-! ### Concrete input streams used by counterexamples and witnesses -/

/-- A fresh state with all-zero indeterminate initial values. -/
def st0 : LoopSt := initSt ⟨0, 0, 0⟩ 0 0

/-- A validly checksummed 16-byte header with bcode 1 and hdrsign 0xAD. -/
def mkH (flags target bc arg : Nat) : List Nat :=
  encodeHeader ⟨1, flags, 0, 0xAD, target, bc, arg⟩

/-- Scenario B of the spec: a single Fill block, address 0x2000, length 64,
argument 0xFFFFFFFF, between a First and a Final block. -/
def scenB : List Nat :=
  mkH BFLAG_FIRST 0x100 0 0 ++ mkH BFLAG_FILL 0x2000 64 0xFFFFFFFF
    ++ mkH BFLAG_FINAL 0 0 0

/-- A literal block at 0x1000 (payload 5,6,7,8) followed by a second literal
block over the same, already covered range (payload 1,2,3,4). -/
def coveredIn : List Nat :=
  mkH BFLAG_FIRST 0x100 0 0 ++ mkH 0 0x1000 4 0 ++ [5, 6, 7, 8]
    ++ mkH 0 0x1000 4 0 ++ [1, 2, 3, 4] ++ mkH BFLAG_FINAL 0 0 0

/-- The same stream without the covered second block. -/
def coveredInNoB : List Nat :=
  mkH BFLAG_FIRST 0x100 0 0 ++ mkH 0 0x1000 4 0 ++ [5, 6, 7, 8]
    ++ mkH BFLAG_FINAL 0 0 0

/-- A literal block at 0x1000 of 8 bytes, then a Fill block over the already
covered range [0x1000, 0x1004). -/
def coveredFillIn : List Nat :=
  mkH BFLAG_FIRST 0x100 0 0 ++ mkH 0 0x1000 8 0 ++ [1, 2, 3, 4, 5, 6, 7, 8]
    ++ mkH BFLAG_FILL 0x1000 4 0xAAAAAAAA ++ mkH BFLAG_FINAL 0 0 0

/-- A single header carrying both FIRST and FINAL, target 7. -/
def firstFinalIn : List Nat := mkH (BFLAG_FIRST ||| BFLAG_FINAL) 7 0 0

/-- A First block (entry point 5) and one literal block, then end of input
with no Final block. -/
def eofIn : List Nat := mkH BFLAG_FIRST 5 0 0 ++ mkH 0 0x1000 4 0 ++ [1, 2, 3, 4]

/-- Three literal blocks: 0x1000+4, 0x1008+4, then 0x1004+4 which glues the
first chunk flush against the second chunk's address. -/
def adjacentIn : List Nat :=
  mkH BFLAG_FIRST 0x1000 0 0
    ++ mkH 0 0x1000 4 0 ++ [1, 2, 3, 4]
    ++ mkH 0 0x1008 4 0 ++ [5, 6, 7, 8]
    ++ mkH 0 0x1004 4 0 ++ [9, 10, 11, 12]
    ++ mkH BFLAG_FINAL 0 0 0

/-! ### Replay definitions (for C8: running the program on its own output) -/

/-- The merge-scan-relevant header of the block a chunk is serialized to
(bcode/hdrsign/checksum take no part in the scan). -/
def hdrOf (c : Chunk) : BlockHeader :=
  ⟨0, c.flags, 0, 0, c.address, c.length, c.argument⟩

/-- Well-formedness of one flushed chunk as the program itself produces
them: 12-bit flags without IGNORE/FIRST/FINAL/INIT, in-range address
arithmetic, and a data buffer (when owned) of exactly `length` fully
written bytes; a data-less chunk is a Fill chunk or empty. -/
@[reducible]
def ReplayChunk (c : Chunk) : Prop :=
  c.flags < 4096
    ∧ c.flags &&& (BFLAG_FIRST ||| BFLAG_FINAL) = 0
    ∧ c.flags &&& BFLAG_FIRST = 0
    ∧ c.flags &&& BFLAG_FINAL = 0
    ∧ c.flags &&& BFLAG_IGNORE = 0
    ∧ c.flags &&& BFLAG_INIT = 0
    ∧ c.address + c.length < M32
    ∧ c.argument < M32
    ∧ (match c.data with
       | some d => c.flags &&& BFLAG_FILL = 0 ∧ d.length = c.length ∧ 0 < c.length
           ∧ ∀ b ∈ d, b.isSome = true
       | none => c.flags &&& BFLAG_FILL ≠ 0 ∨ c.length = 0)

/-- The raw bytes of the per-chunk section of a flushed image. -/
def chunkStream (bcode hdrsign : Nat) : List Chunk → List Nat
  | [] => []
  | c :: cs =>
      encodeHeader ⟨bcode, c.flags, 0, hdrsign, c.address, c.length, c.argument⟩
        ++ (c.data.getD []).map (fun b => b.getD 0) ++ chunkStream bcode hdrsign cs

/-! ### Helper lemmas about the XOR checksum -/

theorem foldl_xor_eq (a : Nat) (l : List Nat) :
    l.foldl Nat.xor a = a ^^^ l.foldl Nat.xor 0 := by
  induction l generalizing a with
  | nil => simp
  | cons x t ih =>
      show t.foldl Nat.xor (a ^^^ x) = a ^^^ t.foldl Nat.xor (0 ^^^ x)
      rw [ih (a ^^^ x), ih (0 ^^^ x), Nat.zero_xor, Nat.xor_assoc]

theorem xorAll_nil : xorAll [] = 0 := rfl

theorem xorAll_cons (x : Nat) (l : List Nat) : xorAll (x :: l) = x ^^^ xorAll l := by
  show List.foldl Nat.xor (0 ^^^ x) l = x ^^^ xorAll l
  rw [foldl_xor_eq, Nat.zero_xor]; rfl

theorem xorAll_append (l1 l2 : List Nat) :
    xorAll (l1 ++ l2) = xorAll l1 ^^^ xorAll l2 := by
  induction l1 with
  | nil => simp [xorAll_nil, Nat.zero_xor]
  | cons x t ih => rw [List.cons_append, xorAll_cons, xorAll_cons, ih, Nat.xor_assoc]

theorem xorAll_lt_256 (l : List Nat) (h : ∀ x ∈ l, x < 256) : xorAll l < 256 := by
  induction l with
  | nil => simp [xorAll_nil]
  | cons x t ih =>
      rw [xorAll_cons]
      exact Nat.xor_lt_two_pow (n := 8) (h x (by simp)) (ih fun y hy => h y (by simp [hy]))

/-- Replacing the third list element by x changes the total XOR by x. -/
theorem xorAll_third (a b x : Nat) (t : List Nat) :
    xorAll (a :: b :: x :: t) = xorAll (a :: b :: 0 :: t) ^^^ x := by
  simp only [xorAll_cons, Nat.zero_xor, Nat.xor_assoc]
  rw [Nat.xor_comm (xorAll t) x]

theorem headerBytes_lt_256 (h : BlockHeader) : ∀ x ∈ headerBytes h, x < 256 := by
  intro x hx
  simp only [headerBytes, le4, List.cons_append, List.nil_append, List.mem_cons,
    List.not_mem_nil, or_false] at hx
  have h16 : h.bcode % 16 < 16 := Nat.mod_lt _ (by norm_num)
  have hf16 : h.flags % 16 < 16 := Nat.mod_lt _ (by norm_num)
  rcases hx with rfl | rfl | rfl | rfl | rfl | rfl | rfl | rfl | rfl | rfl | rfl | rfl
    | rfl | rfl | rfl | rfl <;> omega

/-- Every header the program emits has a zero XOR over its 16 bytes: the
checksum invariant of write_header/calc_header_checksum. -/
theorem xorAll_encodeHeader (h : BlockHeader) : xorAll (encodeHeader h) = 0 := by
  unfold encodeHeader
  set c := xorAll (headerBytes { h with hdrchk := 0 }) with hc
  have hlt : c < 256 := xorAll_lt_256 _ (headerBytes_lt_256 _)
  have hmod : c % 256 = c := Nat.mod_eq_of_lt hlt
  have hexp : headerBytes { h with hdrchk := c } =
      (h.bcode % 16 + h.flags % 16 * 16) :: h.flags / 16 % 256 :: c ::
        (h.hdrsign % 256 :: (le4 h.target_address ++ (le4 h.byte_count ++ le4 h.argument))) := by
    simp [headerBytes, hmod]
  have hexp0 : headerBytes { h with hdrchk := 0 } =
      (h.bcode % 16 + h.flags % 16 * 16) :: h.flags / 16 % 256 :: 0 ::
        (h.hdrsign % 256 :: (le4 h.target_address ++ (le4 h.byte_count ++ le4 h.argument))) := by
    simp [headerBytes]
  rw [hexp, xorAll_third, ← hexp0, ← hc, Nat.xor_self]

/-- CLAIM C5 (confirmed).  For every 16-byte header whose raw bytes XOR to
zero, decoding it and re-encoding the same logical header (checksum zeroed,
recomputed as the XOR of the 16 bytes, stored back) reproduces the identical
16 bytes. -/
theorem c5_checksum_roundtrip (b : List Nat) (hlen : b.length = 16)
    (hb : ∀ x ∈ b, x < 256) (hx : xorAll b = 0) :
    encodeHeader (decodeHeader b) = b := by
  match b, hlen with
  | [b0, b1, b2, b3, b4, b5, b6, b7, b8, b9, b10, b11, b12, b13, b14, b15], _ =>
    simp only [List.mem_cons, List.not_mem_nil, or_false, forall_eq_or_imp, forall_eq] at hb
    obtain ⟨h0, h1, h2, h3, h4, h5, h6, h7, h8, h9, h10, h11, h12, h13, h14, h15⟩ := hb
    have hdec : ∀ x : Nat,
        headerBytes { decodeHeader [b0, b1, b2, b3, b4, b5, b6, b7, b8, b9, b10,
          b11, b12, b13, b14, b15] with hdrchk := x }
        = [b0, b1, x % 256, b3, b4, b5, b6, b7, b8, b9, b10, b11, b12, b13, b14, b15] := by
      intro x
      simp only [headerBytes, decodeHeader, word32At, le4, List.getD, List.cons_append,
        List.nil_append, List.get?, List.cons.injEq, and_true]
      norm_num
      omega
    have hchk : xorAll [b0, b1, 0, b3, b4, b5, b6, b7, b8, b9, b10, b11, b12, b13, b14, b15]
        = b2 := by
      have := xorAll_third b0 b1 b2
        [b3, b4, b5, b6, b7, b8, b9, b10, b11, b12, b13, b14, b15]
      rw [hx] at this
      have h02 : (0 : Nat) = xorAll [b0, b1, 0, b3, b4, b5, b6, b7, b8, b9, b10, b11,
          b12, b13, b14, b15] ^^^ b2 := this
      have := congrArg (· ^^^ b2) h02
      simpa [Nat.xor_cancel_right, Nat.zero_xor] using this.symm
    have hd0 := hdec 0
    rw [Nat.zero_mod] at hd0
    rw [encodeHeader, hd0, hchk, hdec b2, Nat.mod_eq_of_lt h2]

/-- Closed witness for C5 at a concrete all-zero 16-byte header. -/
theorem c5_witness :
    (List.replicate 16 0).length = 16 ∧ (∀ x ∈ List.replicate 16 (0:Nat), x < 256) ∧
    xorAll (List.replicate 16 0) = 0 ∧
    encodeHeader (decodeHeader (List.replicate 16 0)) = List.replicate 16 0 :=
  ⟨by decide, by decide, by decide,
    c5_checksum_roundtrip (List.replicate 16 0) (by decide) (by decide) (by decide)⟩

/-! ### C6: checksum failure aborts the run -/

/-- Replacing the element at index j changes the total XOR by old ^^^ new. -/
theorem xorAll_set (l : List Nat) (j v : Nat) (hj : j < l.length) :
    xorAll (l.set j v) = xorAll l ^^^ (l.getD j 0 ^^^ v) := by
  induction l generalizing j with
  | nil => simp at hj
  | cons x t ih =>
      cases j with
      | zero =>
          simp only [List.set, List.getD, List.get?, xorAll_cons, Option.getD_some]
          rw [Nat.xor_comm x (xorAll t), Nat.xor_assoc, ← Nat.xor_assoc x x,
            Nat.xor_self, Nat.zero_xor, Nat.xor_comm (xorAll t) v]
      | succ j =>
          simp only [List.set, List.getD, List.get?, xorAll_cons]
          rw [ih j (by simpa using hj), Nat.xor_assoc]
          rfl

/-- CLAIM C6 (confirmed).  (1) Whenever the loop reads a 16-byte header
whose raw XOR is nonzero, it stops at once in the checksum-error state
without touching the state; (2) the program then exits with status -1 and
the output is exactly what had been written before (no trailing header is
emitted); (3) flipping any single bit of any byte of a valid 16-byte header
(the checksum byte included) makes the raw XOR nonzero, hence always
triggers this abort. -/
theorem c6_checksum_abort :
    (∀ (fuel : Nat) (st : LoopSt) (hb rest : List Nat), hb.length = 16 →
      xorAll hb ≠ 0 → runLoop (fuel + 1) (hb ++ rest) st = .chkErr st) ∧
    (∀ (input : List Nat) (st0 st : LoopSt),
      runLoop input.length input st0 = .chkErr st →
      ldrshrink input st0 = (-1, st.out, st.flushes)) ∧
    (∀ (b : List Nat) (j k : Nat), j < 16 → k < 8 → b.length = 16 → xorAll b = 0 →
      xorAll (b.set j (b.getD j 0 ^^^ 2 ^ k)) ≠ 0) := by
  refine ⟨?_, ?_, ?_⟩
  · intro fuel st hb rest hlen hx
    rw [runLoop]
    have hlen2 : ¬ (hb ++ rest).length < 16 := by simp [hlen]
    rw [if_neg hlen2]
    have ht : (hb ++ rest).take 16 = hb := by
      rw [← hlen]; exact List.take_left hb rest
    simp only [ht, hx, ne_eq, not_false_iff, bne_iff_ne, if_pos]
  · intro input st0 st h
    unfold ldrshrink
    rw [h]
  · intro b j k hj hk hlen hx
    rw [xorAll_set b j _ (by omega), hx, Nat.zero_xor, ← Nat.xor_assoc,
      Nat.xor_self, Nat.zero_xor]
    have : (0:Nat) < 2 ^ k := Nat.pos_pow_of_pos k (by norm_num)
    omega

/-- Closed witness for C6: a corrupted all-zero header (bit 0 of byte 0
flipped) is rejected on the spot and the program exits with -1. -/
theorem c6_witness :
    runLoop 1 ((List.replicate 16 0).set 0 1 ++ []) (initSt ⟨0, 0, 0⟩ 0 0)
      = .chkErr (initSt ⟨0, 0, 0⟩ 0 0) ∧
    xorAll ((List.replicate 16 (0:Nat)).set 0 (List.getD (List.replicate 16 0) 0 0 ^^^ 2 ^ 0)) ≠ 0 ∧
    ldrshrink ((List.replicate 16 0).set 0 1) (initSt ⟨0, 0, 0⟩ 0 0)
      = (-1, [], []) := by
  refine ⟨c6_checksum_abort.1 0 _ _ [] (by decide) (by decide),
    c6_checksum_abort.2.2 _ 0 0 (by decide) (by decide) (by decide) (by decide), ?_⟩
  have h := c6_checksum_abort.2.1 ((List.replicate 16 0).set 0 1)
    (initSt ⟨0, 0, 0⟩ 0 0) (initSt ⟨0, 0, 0⟩ 0 0)
  simp only [List.length_set, List.length_replicate] at h
  exact h (by decide)

/-! ### C4: characterization of the merge scan (spec-side definitions follow
the claim's wording and are proved equal to the code-side scan) -/

theorem blockMatches_eq (hdr : BlockHeader) (c : Chunk) :
    blockMatches hdr c = (provisosOK hdr && specMatch hdr c) := by
  simp only [blockMatches, provisosOK, specMatch, Bool.not_not, bne, ge_iff_le,
    Bool.and_assoc]

theorem findMatchIdx_eq (hdr : BlockHeader) (l : List Chunk) :
    findMatchIdx hdr l = if provisosOK hdr then specFindIdx hdr l else none := by
  induction l with
  | nil => cases provisosOK hdr <;> simp [findMatchIdx, specFindIdx]
  | cons c cs ih =>
      rw [findMatchIdx, specFindIdx, blockMatches_eq, ih]
      cases hp : provisosOK hdr <;> cases hs : specMatch hdr c <;> simp

/-- CLAIM C4 (confirmed).  When the provisos hold, the incoming block merges
into (exactly) the first chunk, in list order, that is not a Fill chunk and
whose closed interval contains targetAddress — the list is left as is and
that chunk's index is selected; when a proviso fails or no chunk qualifies,
a new zero-length data-less chunk carrying the header's address, argument
and flags is appended at the end of the list (where the scan stopped),
preserving the relative order of the existing chunks. -/
theorem c4_merge_scan (hdr : BlockHeader) (l : List Chunk) :
    (provisosOK hdr = true →
      findOrCreate hdr l =
        (match specFindIdx hdr l with
         | some i => (l, i)
         | none => (l ++ [⟨hdr.target_address, hdr.argument, none, 0, hdr.flags⟩],
             l.length))) ∧
    (provisosOK hdr = false →
      findOrCreate hdr l =
        (l ++ [⟨hdr.target_address, hdr.argument, none, 0, hdr.flags⟩], l.length)) := by
  constructor
  · intro hp
    rw [findOrCreate, findMatchIdx_eq, if_pos hp]
    cases specFindIdx hdr l <;> rfl
  · intro hp
    rw [findOrCreate, findMatchIdx_eq, hp]
    rfl

/-- Closed witness for C4: a FILL-only block at 0x1004 merges into a
non-Fill chunk covering it and skips an earlier Fill chunk; with the FILL
size proviso violated (byte count 300) the same block is appended at the
end instead. -/
theorem c4_witness :
    (provisosOK ⟨1, 16, 0, 0, 0x1004, 8, 5⟩ = true ∧
      findOrCreate ⟨1, 16, 0, 0, 0x1004, 8, 5⟩
        [⟨0x1000, 9, none, 64, 16⟩, ⟨0x1000, 0, some [], 8, 0⟩]
        = ([⟨0x1000, 9, none, 64, 16⟩, ⟨0x1000, 0, some [], 8, 0⟩], 1)) ∧
    (provisosOK ⟨1, 16, 0, 0, 0x1004, 300, 5⟩ = false ∧
      findOrCreate ⟨1, 16, 0, 0, 0x1004, 300, 5⟩
        [⟨0x1000, 0, some [], 8, 0⟩]
        = ([⟨0x1000, 0, some [], 8, 0⟩, ⟨0x1004, 5, none, 0, 16⟩], 1)) := by
  constructor
  · refine ⟨by decide, ?_⟩
    rw [(c4_merge_scan ⟨1, 16, 0, 0, 0x1004, 8, 5⟩
      [⟨0x1000, 9, none, 64, 16⟩, ⟨0x1000, 0, some [], 8, 0⟩]).1 (by decide)]
    decide
  · refine ⟨by decide, ?_⟩
    rw [(c4_merge_scan ⟨1, 16, 0, 0, 0x1004, 300, 5⟩
      [⟨0x1000, 0, some [], 8, 0⟩]).2 (by decide)]
    decide

/-! ### C9: what a flush writes (spec-side definitions follow the claim's
wording and are proved equal to the code-side writeImage) -/

theorem chunkSizes_eq (cs : List Chunk) : 16 + chunkSizes cs = specTotalSize cs := by
  induction cs with
  | nil => rfl
  | cons c cs ih =>
      rw [chunkSizes, specTotalSize, List.map_cons, List.sum_cons]
      rw [specTotalSize] at ih
      cases c.data <;> simp_all

/-- CLAIM C9 (confirmed).  A flush writes the synthetic leading header
(flags = IGNORE|FIRST, hdrsign/bcode from the settings, targetAddress =
entryPoint, byte count zero, argument = the total image size) followed by
the chunks in list order, each as a header plus its data buffer exactly
when materialized.  The hypothesis is the allocation invariant of the C
program: a materialized buffer has exactly `length` bytes. -/
theorem c9_write_image (cs : List Chunk) (s : ImageSettings)
    (hwf : ∀ c ∈ cs, ∀ d, c.data = some d → d.length = c.length) :
    writeImage cs s =
      (encodeHeader ⟨s.bcode, BFLAG_IGNORE ||| BFLAG_FIRST, 0, s.hdrsign,
          s.entry_point, 0, specTotalSize cs⟩).map some
        ++ specChunksOut s.bcode s.hdrsign cs := by
  rw [writeImage, imagePosition, chunkSizes_eq]
  congr 1
  induction cs with
  | nil => rfl
  | cons c cs ih =>
      have hcd : chunkData c
          = (match c.data with | some d => d | none => ([] : List (Option Nat))) := by
        rcases hd : c.data with _ | d
        · simp [chunkData, hd]
        · have hl := hwf c (by simp) d hd
          simp only [chunkData, hd]
          rw [← hl, List.take_left]
      rw [chunkBlockBytes, specChunksOut,
        ih (fun c hc => hwf c (List.mem_cons_of_mem _ hc)), hcd]

/-- Closed witness for C9 at a two-chunk store (one materialized chunk, one
data-less Fill chunk). -/
theorem c9_witness :
    writeImage [⟨0x1000, 0, some [some 1, some 2, some 3, some 4], 4, 0⟩,
        ⟨0x2000, 7, none, 300, 16⟩] ⟨0xAD, 1, 0x1000⟩
      = (encodeHeader ⟨1, BFLAG_IGNORE ||| BFLAG_FIRST, 0, 0xAD, 0x1000, 0,
          specTotalSize [⟨0x1000, 0, some [some 1, some 2, some 3, some 4], 4, 0⟩,
            ⟨0x2000, 7, none, 300, 16⟩]⟩).map some
        ++ specChunksOut 1 0xAD [⟨0x1000, 0, some [some 1, some 2, some 3, some 4], 4, 0⟩,
            ⟨0x2000, 7, none, 300, 16⟩] :=
  c9_write_image _ _ (by decide)

/-! ### C1: a small Fill-only block with no match is NOT materialized -/

/-- CLAIM C1 is false on the code (counterexample).  On Scenario B's input —
a lone Fill block, address 0x2000, length 64, argument 0xFFFFFFFF — the
single flushed chunk owns NO data buffer (`data = none`): the freshly
created chunk carries the FILL flag itself, so the unroll step
(`if (!(additional->flags & BFLAG_FILL))`) skips it.  The claim asserts a
materialized 64-byte buffer of 0xFF bytes. -/
theorem c1_counterexample :
    (ldrshrink scenB st0).2.2 = [[⟨0x2000, 0xFFFFFFFF, none, 64, BFLAG_FILL⟩]] ∧
    ((((ldrshrink scenB st0).2.2.getD 0 []).getD 0 ⟨0, 0, none, 0, 0⟩).data
      = none) := by
  constructor <;> decide

/-- When the scan finds no match, the block's effect is: append the freshly
created chunk, extended in place, at the end of the list. -/
theorem mergeBlock_fresh (hdr : BlockHeader) (rest : List Nat) (st : LoopSt)
    (hnm : findMatchIdx hdr st.list = none) :
    mergeBlock hdr rest st =
      ({ st with list := st.list ++ [(extendChunk hdr rest (newChunk hdr)).1] },
        (extendChunk hdr rest (newChunk hdr)).2) := by
  have hgd : (st.list ++ [newChunk hdr]).getD st.list.length (newChunk hdr)
      = newChunk hdr := by
    rw [List.getD_eq_getElem?_getD, List.getElem?_concat_length]
    rfl
  have hset : ∀ y, (st.list ++ [newChunk hdr]).set st.list.length y
      = st.list ++ [y] := by
    intro y
    induction st.list with
    | nil => rfl
    | cons a t ih => simp [List.set, ih]
  rw [mergeBlock, findOrCreate, hnm]
  simp only [hgd, hset]

/-- Extending a fresh chunk created by a Fill-flagged header copies nothing:
the chunk keeps a NULL data pointer and only its length advances. -/
theorem extendChunk_fresh_fill (hdr : BlockHeader) (rest : List Nat)
    (hfill : hdr.flags &&& BFLAG_FILL ≠ 0)
    (h0 : 0 < hdr.byte_count)
    (hw : hdr.target_address + hdr.byte_count < M32) :
    extendChunk hdr rest (newChunk hdr)
      = (⟨hdr.target_address, hdr.argument, none, hdr.byte_count, hdr.flags⟩, 0) := by
  have hbnd : hdr.target_address < M32 := by omega
  have ha : (hdr.target_address + hdr.byte_count) % M32
      = hdr.target_address + hdr.byte_count := Nat.mod_eq_of_lt hw
  show extendChunk hdr rest ⟨hdr.target_address, hdr.argument, none, 0, hdr.flags⟩ = _
  rw [extendChunk]
  split_ifs with h1 h2
  · simp only [Prod.mk.injEq, Chunk.mk.injEq, and_true, true_and]
    show (0 + ((hdr.target_address + hdr.byte_count) % M32
      - (hdr.target_address + 0) % M32)) % M32 = hdr.byte_count
    rw [Nat.zero_add, ha, Nat.add_zero, Nat.mod_eq_of_lt hbnd]
    have he : hdr.target_address + hdr.byte_count - hdr.target_address
        = hdr.byte_count := by omega
    rw [he]
    exact Nat.mod_eq_of_lt (by omega)
  · exfalso
    simp only [bne_iff_ne, ne_eq, not_not] at h2
    exact hfill h2
  · exfalso
    apply h1
    show (hdr.target_address + hdr.byte_count) % M32
      > (hdr.target_address + 0) % M32
    rw [ha, Nat.add_zero, Nat.mod_eq_of_lt hbnd]
    omega

/-- Extending a fresh chunk with byte count 0 changes nothing (overhang 0). -/
theorem extendChunk_fresh_zero (hdr : BlockHeader) (rest : List Nat)
    (h0 : hdr.byte_count = 0) :
    extendChunk hdr rest (newChunk hdr) = (newChunk hdr, 0) := by
  show extendChunk hdr rest ⟨hdr.target_address, hdr.argument, none, 0, hdr.flags⟩ = _
  rw [extendChunk,
    if_neg (show ¬ (hdr.target_address + hdr.byte_count) % M32
        > (hdr.target_address + 0) % M32 by rw [h0]; omega)]
  rfl

/-- CLAIM C1 amended (proved).  A Fill-only block with byteCount ≤ 256 whose
targetAddress matches no existing chunk is appended as a NEW, UNMATERIALIZED
Fill chunk: no data buffer, length = byteCount, address/argument/flags from
the header; no literal data is produced (unrolling happens only when such a
block merges into an existing non-Fill chunk). -/
theorem c1_amended (hdr : BlockHeader) (rest : List Nat) (st : LoopSt)
    (hfill : hdr.flags &&& BFLAG_FILL ≠ 0)
    (hnm : findMatchIdx hdr st.list = none)
    (h0 : 0 < hdr.byte_count)
    (hw : hdr.target_address + hdr.byte_count < M32) :
    mergeBlock hdr rest st =
      ({ st with list := st.list ++
          [⟨hdr.target_address, hdr.argument, none, hdr.byte_count, hdr.flags⟩] }, 0) := by
  rw [mergeBlock_fresh hdr rest st hnm, extendChunk_fresh_fill hdr rest hfill h0 hw]

/-- Closed witness for the amended C1 at Scenario B's Fill header against an
empty chunk store. -/
theorem c1_witness :
    mergeBlock ⟨1, BFLAG_FILL, 0, 0xAD, 0x2000, 64, 0xFFFFFFFF⟩ [] st0
      = ({ st0 with list := [⟨0x2000, 0xFFFFFFFF, none, 64, BFLAG_FILL⟩] }, 0) :=
  c1_amended ⟨1, BFLAG_FILL, 0, 0xAD, 0x2000, 64, 0xFFFFFFFF⟩ [] st0
    (by decide) (by decide) (by decide) (by decide)

/-! ### C2: a fully covered non-Fill block does NOT have its payload skipped -/

/-- CLAIM C2 is false on the code (code bug, evaluated here).  The covered
second literal block's 4 payload bytes [1,2,3,4] are never consumed (the
overhang <= 0 path neither freads nor fseeks), so they are parsed as the
start of the next header: the run aborts with checksum failure, exit -1,
and nothing is flushed.  Without the covered block the same stream runs to
completion: exit 0 and one flushed chunk holding [5,6,7,8], which is what
the claim says should also happen with the covered block present. -/
theorem c2_payload_not_skipped :
    (ldrshrink coveredIn st0).1 = -1 ∧
    (ldrshrink coveredIn st0).2.2 = [] ∧
    (ldrshrink coveredInNoB st0).1 = 0 ∧
    (ldrshrink coveredInNoB st0).2.2
      = [[⟨0x1000, 0, some [some 5, some 6, some 7, some 8], 4, 0⟩]] := by
  refine ⟨by decide, by decide, by decide, by decide⟩

/-! ### C3: last write does not always win; appends do place payload bytes -/

/-- CLAIM C3 is false on the code (counterexample).  After a literal block
writes [1..8] at 0x1000, a Fill block over the already covered [0x1000,
0x1004) is silently discarded (overhang <= 0 copies nothing): the flushed
chunk still holds byte 1 at 0x1000, not a byte of the fill argument
0xAAAAAAAA, although the Fill block was the last write covering that
position and no Fill-into-Fill segregation was involved. -/
theorem c3_counterexample :
    (ldrshrink coveredFillIn st0).2.2
      = [[⟨0x1000, 0, some [some 1, some 2, some 3, some 4, some 5, some 6,
          some 7, some 8], 8, 0⟩]] ∧
    (((((ldrshrink coveredFillIn st0).2.2.getD 0 []).getD 0
        ⟨0, 0, none, 0, 0⟩).data.getD []).getD 0 none = some 1) := by
  constructor <;> decide

theorem set_append_len {α : Type} (l : List α) (x : α) (t : List α) (v : α) :
    (l ++ x :: t).set l.length v = l ++ v :: t := by
  induction l with
  | nil => rfl
  | cons a u ih => simp [List.set, ih]

theorem writeBytesAt_from (bs : List (Option Nat)) :
    ∀ (d t : List (Option Nat)), bs.length ≤ t.length →
      writeBytesAt (d ++ t) d.length bs = d ++ bs ++ t.drop bs.length := by
  induction bs with
  | nil => intro d t _; simp [writeBytesAt]
  | cons b bs ih =>
      intro d t h
      cases t with
      | nil => simp at h
      | cons t0 t' =>
          rw [writeBytesAt, set_append_len]
          have h2 := ih (d ++ [b]) t' (by simpa using h)
          rw [show d ++ b :: t' = (d ++ [b]) ++ t' from by simp]
          rw [show d.length + 1 = (d ++ [b]).length from by simp]
          rw [h2]
          simp

theorem getD_append_len {α : Type} (l1 l2 : List α) (i : Nat) (dft : α) :
    (l1 ++ l2).getD (l1.length + i) dft = l2.getD i dft := by
  induction l1 with
  | nil => simp
  | cons a t ih =>
      rw [show (a :: t).length + i = (t.length + i) + 1 from by simp; omega]
      simpa using ih

theorem getD_map_some (xs : List Nat) (i : Nat) (h : i < xs.length) :
    (xs.map some).getD i none = some (xs.getD i 0) := by
  rw [List.getD_eq_getElem?_getD, List.getD_eq_getElem?_getD, List.getElem?_map,
    List.getElem?_eq_getElem h]
  rfl

/-- A non-Fill block appending exactly at a chunk's end consumes byteCount
stream bytes and appends them to the data buffer. -/
theorem extendChunk_append (hdr : BlockHeader) (rest : List Nat) (c : Chunk)
    (hnf : hdr.flags &&& BFLAG_FILL = 0)
    (happ : hdr.target_address = c.address + c.length)
    (hw : c.address + c.length + hdr.byte_count < M32)
    (hbc : 0 < hdr.byte_count)
    (hrest : hdr.byte_count ≤ rest.length)
    (hbuf : ∀ d, c.data = some d → d.length = c.length)
    (hnd : c.data = none → c.length = 0) :
    extendChunk hdr rest c
      = ({ c with data := some (c.data.getD [] ++ (rest.take hdr.byte_count).map some),
                  length := c.length + hdr.byte_count }, hdr.byte_count)
    ∧ ∀ i, i < hdr.byte_count →
        (c.data.getD [] ++ (rest.take hdr.byte_count).map some).getD
          (hdr.target_address + i - c.address) none = some (rest.getD i 0) := by
  have hA : c.address < M32 := by omega
  have hL : (c.address + c.length) % M32 = c.address + c.length :=
    Nat.mod_eq_of_lt (by omega)
  have hT : (hdr.target_address + hdr.byte_count) % M32
      = c.address + c.length + hdr.byte_count := by
    rw [happ]; exact Nat.mod_eq_of_lt hw
  have hcond : (hdr.target_address + hdr.byte_count) % M32
      > (c.address + c.length) % M32 := by rw [hT, hL]; omega
  have hadd : (hdr.target_address + hdr.byte_count) % M32
      - (c.address + c.length) % M32 = hdr.byte_count := by rw [hT, hL]; omega
  have hoff : subM32 hdr.target_address c.address = c.length := by
    rw [subM32, happ, Nat.mod_eq_of_lt hA,
      show c.address + c.length + M32 - c.address = M32 + c.length from by omega,
      Nat.add_mod_left]
    exact Nat.mod_eq_of_lt (by omega)
  have hd0len : (c.data.getD []).length = c.length := by
    rcases hd : c.data with _ | d
    · simp [hnd hd]
    · simpa using hbuf d hd
  have hre : reallocBuf c hdr.byte_count
      = c.data.getD [] ++ List.replicate hdr.byte_count none := by
    rcases hd : c.data with _ | d
    · simp [reallocBuf, hd, hnd hd]
    · simp [reallocBuf, hd]
  have hbs : ((rest.take hdr.byte_count).map some).length = hdr.byte_count := by
    simp [Nat.min_eq_left hrest]
  have hwrite : writeBytesAt (reallocBuf c hdr.byte_count)
      (subM32 hdr.target_address c.address) ((rest.take hdr.byte_count).map some)
      = c.data.getD [] ++ (rest.take hdr.byte_count).map some := by
    rw [hoff, hre, ← hd0len,
      writeBytesAt_from _ _ _ (by rw [hbs, List.length_replicate]),
      hbs]
    simp
  have hnfb : (hdr.flags &&& BFLAG_FILL != 0) = false := by simp [hnf]
  have hlen : (c.length + hdr.byte_count) % M32 = c.length + hdr.byte_count :=
    Nat.mod_eq_of_lt (by omega)
  constructor
  · rw [extendChunk, if_pos hcond, hnfb]
    simp only [Bool.false_eq_true, if_false, hadd, hwrite, hlen,
      Nat.min_eq_left hrest]
  · intro i hi
    rw [show hdr.target_address + i - c.address = c.length + i from by omega,
      ← hd0len, getD_append_len,
      getD_map_some _ i (by rw [List.length_take]; omega)]
    congr 1
    rw [List.getD_eq_getElem?_getD, List.getD_eq_getElem?_getD,
      List.getElem?_take_of_lt hi]

/-- CLAIM C3 amended (proved).  Last-writer-wins holds only for writes that
extend a chunk: a non-Fill block that appends exactly at the end of the
matched chunk (targetAddress = address + length; a fresh chunk is the case
length = 0) consumes byteCount payload bytes and places payload byte i at
address targetAddress + i, so its bytes all win; a block whose range is
already fully covered is discarded outright and the old data retained (see
the counterexample). -/
theorem c3_amended (hdr : BlockHeader) (rest : List Nat) (c : Chunk)
    (hnf : hdr.flags &&& BFLAG_FILL = 0)
    (happ : hdr.target_address = c.address + c.length)
    (hw : c.address + c.length + hdr.byte_count < M32)
    (hbc : 0 < hdr.byte_count)
    (hrest : hdr.byte_count ≤ rest.length)
    (hbuf : ∀ d, c.data = some d → d.length = c.length)
    (hnd : c.data = none → c.length = 0) :
    extendChunk hdr rest c
      = ({ c with data := some (c.data.getD [] ++ (rest.take hdr.byte_count).map some),
                  length := c.length + hdr.byte_count }, hdr.byte_count)
    ∧ ∀ i, i < hdr.byte_count →
        (c.data.getD [] ++ (rest.take hdr.byte_count).map some).getD
          (hdr.target_address + i - c.address) none = some (rest.getD i 0) :=
  extendChunk_append hdr rest c hnf happ hw hbc hrest hbuf hnd

/-- Closed witness for the amended C3: a 4-byte literal block appended at
the end of a 4-byte chunk; payload byte 1 (value 8) lands at address
0x1004 + 1. -/
theorem c3_witness :
    extendChunk ⟨1, 0, 0, 0xAD, 0x1004, 4, 0⟩ [9, 8, 7, 6]
        ⟨0x1000, 0, some [some 1, some 2, some 3, some 4], 4, 0⟩
      = (⟨0x1000, 0, some [some 1, some 2, some 3, some 4, some 9, some 8,
          some 7, some 6], 8, 0⟩, 4) ∧
    ((some [some 1, some 2, some 3, some 4] :
        Option (List (Option Nat))).getD [] ++ ([9, 8, 7, 6].take 4).map some).getD
      (0x1004 + 1 - 0x1000) none = some 8 := by
  have h := c3_amended ⟨1, 0, 0, 0xAD, 0x1004, 4, 0⟩ [9, 8, 7, 6]
    ⟨0x1000, 0, some [some 1, some 2, some 3, some 4], 4, 0⟩
    (by decide) (by decide) (by decide) (by decide) (by decide)
    (fun d hd => by injection hd with h; rw [← h]; decide)
    (fun h => by simp at h)
  refine ⟨h.1.trans (by decide), ?_⟩
  have h2 := h.2 1 (by decide)
  exact h2.trans (by decide)

/-! ### C7: FIRST is honoured only when FINAL is not also set -/

/-- CLAIM C7 is false on the code (counterexample).  A header with both
FIRST and FINAL set (target 7) is handled as a Final block: processing
stops right there (the trailing Final header is written and the run exits),
and the entry point is NOT captured — the trailer carries target_address 0
(the indeterminate initial entry point), not 7.  The claim promises First
handling (capture of entryPoint = 7 and continuation) regardless of other
flag bits. -/
theorem c7_counterexample :
    ldrshrink firstFinalIn st0
      = (0, (encodeHeader ⟨1, BFLAG_FINAL, 0, 0xAD, 0, 0, 0⟩).map some, []) := by
  decide

/-- One loop iteration on a valid header with FIRST set and FINAL clear:
flush a non-empty store, capture the settings, consume no payload,
continue. -/
theorem step_first (fuel : Nat) (st : LoopSt) (hb rest : List Nat)
    (hlen : hb.length = 16) (hx : xorAll hb = 0)
    (hfirst : (decodeHeader hb).flags &&& BFLAG_FIRST ≠ 0)
    (hfinal : (decodeHeader hb).flags &&& BFLAG_FINAL = 0) :
    runLoop (fuel + 1) (hb ++ rest) st =
      runLoop fuel rest
        { (if st.list ≠ [] then
            doFlush { st with lastBcode := (decodeHeader hb).bcode,
                              lastHdrsign := (decodeHeader hb).hdrsign }
          else { st with lastBcode := (decodeHeader hb).bcode,
                         lastHdrsign := (decodeHeader hb).hdrsign }) with
          settings := ⟨(decodeHeader hb).hdrsign, (decodeHeader hb).bcode,
            (decodeHeader hb).target_address⟩ } := by
  rw [runLoop]
  have hlen2 : ¬ (hb ++ rest).length < 16 := by simp [hlen]
  rw [if_neg hlen2]
  have ht : (hb ++ rest).take 16 = hb := by
    rw [← hlen]; exact List.take_left hb rest
  have hd : (hb ++ rest).drop 16 = rest := by
    rw [← hlen]; exact List.drop_left hb rest
  have hff : ((decodeHeader hb).flags &&& (BFLAG_FIRST ||| BFLAG_FINAL) != 0)
      = true := by
    simp only [bne_iff_ne, ne_eq]
    intro hz
    apply hfirst
    have hmask : (BFLAG_FIRST ||| BFLAG_FINAL) &&& BFLAG_FIRST = BFLAG_FIRST := by
      decide
    have h1 : (decodeHeader hb).flags &&& BFLAG_FIRST
        = (decodeHeader hb).flags &&& (BFLAG_FIRST ||| BFLAG_FINAL) &&& BFLAG_FIRST := by
      rw [Nat.land_assoc, hmask]
    rw [h1, hz]
    decide
  have hfinb : ((decodeHeader hb).flags &&& BFLAG_FINAL != 0) = false := by
    simp [hfinal]
  have hfirb : ((decodeHeader hb).flags &&& BFLAG_FIRST != 0) = true := by
    simpa using hfirst
  simp only [ht, hd, hx, bne_self_eq_false, Bool.false_eq_true, if_false,
    hff, if_true, hfinb, hfirb]

/-- CLAIM C7 amended (proved).  For every header with FIRST set and FINAL
clear, regardless of the remaining flag bits, the block is handled as a
First block: a non-empty chunk store is flushed, entryPoint/hdrsign/bcode
are captured from the header, no payload is consumed, and the loop
continues with the very next header. -/
theorem c7_amended (fuel : Nat) (st : LoopSt) (hb rest : List Nat)
    (hlen : hb.length = 16) (hx : xorAll hb = 0)
    (hfirst : (decodeHeader hb).flags &&& BFLAG_FIRST ≠ 0)
    (hfinal : (decodeHeader hb).flags &&& BFLAG_FINAL = 0) :
    runLoop (fuel + 1) (hb ++ rest) st =
      runLoop fuel rest
        { (if st.list ≠ [] then
            doFlush { st with lastBcode := (decodeHeader hb).bcode,
                              lastHdrsign := (decodeHeader hb).hdrsign }
          else { st with lastBcode := (decodeHeader hb).bcode,
                         lastHdrsign := (decodeHeader hb).hdrsign }) with
          settings := ⟨(decodeHeader hb).hdrsign, (decodeHeader hb).bcode,
            (decodeHeader hb).target_address⟩ } :=
  step_first fuel st hb rest hlen hx hfirst hfinal

/-- Closed witness for the amended C7: a FIRST|INIT header (FINAL clear) at
target 9 over an empty store captures entry point 9 and continues. -/
theorem c7_witness :
    runLoop 1 (mkH (BFLAG_FIRST ||| BFLAG_INIT) 9 0 0 ++ []) st0 =
      runLoop 0 []
        { (if st0.list ≠ [] then
            doFlush { st0 with
              lastBcode := (decodeHeader (mkH (BFLAG_FIRST ||| BFLAG_INIT) 9 0 0)).bcode,
              lastHdrsign := (decodeHeader (mkH (BFLAG_FIRST ||| BFLAG_INIT) 9 0 0)).hdrsign }
          else { st0 with
              lastBcode := (decodeHeader (mkH (BFLAG_FIRST ||| BFLAG_INIT) 9 0 0)).bcode,
              lastHdrsign := (decodeHeader (mkH (BFLAG_FIRST ||| BFLAG_INIT) 9 0 0)).hdrsign }) with
          settings := ⟨(decodeHeader (mkH (BFLAG_FIRST ||| BFLAG_INIT) 9 0 0)).hdrsign,
            (decodeHeader (mkH (BFLAG_FIRST ||| BFLAG_INIT) 9 0 0)).bcode,
            (decodeHeader (mkH (BFLAG_FIRST ||| BFLAG_INIT) 9 0 0)).target_address⟩ } :=
  c7_amended 0 st0 (mkH (BFLAG_FIRST ||| BFLAG_INIT) 9 0 0) []
    (by decide) (by decide) (by decide) (by decide)

/-! ### C10: end of input without a Final block -/

/-- CLAIM C10 (confirmed).  When the input ends (fread fails) without a
Final block having been seen, the chunks accumulated since the last flush
are never written — end of input does not trigger a flush, so the output is
exactly the flushed bytes so far plus the 16-byte trailing synthetic header
(flags FINAL, targetAddress = the captured entry point, byteCount 0,
argument 0) — and the exit status is 0. -/
theorem c10_eof_no_flush (input : List Nat) (st0v st : LoopSt)
    (h : runLoop input.length input st0v = .eof st) :
    ldrshrink input st0v =
      (0, st.out ++ (encodeHeader ⟨st.lastBcode, BFLAG_FINAL, 0, st.lastHdrsign,
          st.settings.entry_point, 0, 0⟩).map some, st.flushes) := by
  unfold ldrshrink
  rw [h]
  rfl

/-- Closed witness for C10: a First block (entry 5) and one literal block,
then end of input.  The accumulated chunk is dropped (no flush record, no
image bytes), yet the trailing Final header carrying entry point 5 is
written and the exit status is 0. -/
theorem c10_witness :
    runLoop eofIn.length eofIn st0
      = .eof ⟨[⟨0x1000, 0, some [some 1, some 2, some 3, some 4], 4, 0⟩],
          ⟨0xAD, 1, 5⟩, 1, 0xAD, [], []⟩ ∧
    ldrshrink eofIn st0
      = (0, [] ++ (encodeHeader ⟨1, BFLAG_FINAL, 0, 0xAD, 5, 0, 0⟩).map some, []) :=
  ⟨by decide,
    c10_eof_no_flush eofIn st0
      ⟨[⟨0x1000, 0, some [some 1, some 2, some 3, some 4], 4, 0⟩],
        ⟨0xAD, 1, 5⟩, 1, 0xAD, [], []⟩ (by decide)⟩

/-! ### C8: replay of a flushed image -/

theorem encodeHeader_length (h : BlockHeader) : (encodeHeader h).length = 16 := by
  simp [encodeHeader, headerBytes, le4]

/-- Decoding a freshly encoded header recovers the logical fields (with the
recomputed checksum stored), provided the fields are in range. -/
theorem decodeHeader_encodeHeader (h : BlockHeader) (hb : h.bcode < 16)
    (hf : h.flags < 4096) (hs : h.hdrsign < 256) (ht : h.target_address < M32)
    (hbc : h.byte_count < M32) (ha : h.argument < M32) :
    decodeHeader (encodeHeader h)
      = { h with hdrchk := xorAll (headerBytes { h with hdrchk := 0 }) } := by
  set c := xorAll (headerBytes { h with hdrchk := 0 }) with hc
  have hcl : c < 256 := xorAll_lt_256 _ (headerBytes_lt_256 _)
  simp only [M32] at ht hbc ha
  rw [encodeHeader, ← hc]
  simp only [headerBytes, le4, decodeHeader, word32At, List.cons_append,
    List.nil_append, List.getD, List.get?, BlockHeader.mk.injEq]
  norm_num
  omega

theorem findMatchIdx_none (hdr : BlockHeader) (l : List Chunk)
    (h : ∀ a ∈ l, blockMatches hdr a = false) : findMatchIdx hdr l = none := by
  induction l with
  | nil => rfl
  | cons a t ih =>
      rw [findMatchIdx, h a (by simp), ih (fun a ha => h a (by simp [ha]))]
      rfl

/-- The merge scan inspects only flags, byte count and target address of the
incoming header. -/
theorem blockMatches_fields (h1 h2 : BlockHeader) (c : Chunk)
    (hfl : h1.flags = h2.flags) (hbc : h1.byte_count = h2.byte_count)
    (hta : h1.target_address = h2.target_address) :
    blockMatches h1 c = blockMatches h2 c := by
  simp only [blockMatches, hfl, hbc, hta]

theorem map_getD_some (d : List (Option Nat)) (h : ∀ b ∈ d, b.isSome = true) :
    (d.map (fun b => b.getD 0)).map some = d := by
  induction d with
  | nil => rfl
  | cons b t ih =>
      rcases b with _ | v
      · exact absurd (h none (by simp)) (by simp)
      · simp only [List.map_cons]
        rw [ih (fun b hb => h b (by simp [hb]))]
        rfl

theorem LoopSt_update_last (st : LoopSt) (l : List Chunk) (b h : Nat)
    (hb : st.lastBcode = b) (hh : st.lastHdrsign = h) :
    ({ st with list := l, lastBcode := b, lastHdrsign := h } : LoopSt)
      = { st with list := l } := by
  cases st
  cases hb
  cases hh
  rfl

/-- One loop iteration on a valid header with FINAL set: flush a non-empty
store and stop. -/
theorem step_final (fuel : Nat) (st : LoopSt) (hb rest : List Nat)
    (hlen : hb.length = 16) (hx : xorAll hb = 0)
    (hfin : (decodeHeader hb).flags &&& BFLAG_FINAL ≠ 0) :
    runLoop (fuel + 1) (hb ++ rest) st
      = .fin (if st.list ≠ [] then
          doFlush { st with lastBcode := (decodeHeader hb).bcode,
                            lastHdrsign := (decodeHeader hb).hdrsign }
        else { st with lastBcode := (decodeHeader hb).bcode,
                       lastHdrsign := (decodeHeader hb).hdrsign }) := by
  rw [runLoop]
  have hlen2 : ¬ (hb ++ rest).length < 16 := by simp [hlen]
  rw [if_neg hlen2]
  have ht : (hb ++ rest).take 16 = hb := by
    rw [← hlen]; exact List.take_left hb rest
  have hff : ((decodeHeader hb).flags &&& (BFLAG_FIRST ||| BFLAG_FINAL) != 0)
      = true := by
    simp only [bne_iff_ne, ne_eq]
    intro hz
    apply hfin
    have hmask : (BFLAG_FIRST ||| BFLAG_FINAL) &&& BFLAG_FINAL = BFLAG_FINAL := by
      decide
    have h1 : (decodeHeader hb).flags &&& BFLAG_FINAL
        = (decodeHeader hb).flags &&& (BFLAG_FIRST ||| BFLAG_FINAL) &&& BFLAG_FINAL := by
      rw [Nat.land_assoc, hmask]
    rw [h1, hz]
    decide
  have hfinb : ((decodeHeader hb).flags &&& BFLAG_FINAL != 0) = true := by
    simpa using hfin
  simp only [ht, hx, bne_self_eq_false, Bool.false_eq_true, if_false, hff,
    if_true, hfinb]

/-- Merging the serialized block of a well-formed chunk into a list it does
not match recreates exactly that chunk at the end, consuming exactly its
data bytes. -/
theorem replay_merge (hdrD : BlockHeader) (c : Chunk) (tailb : List Nat)
    (st : LoopSt)
    (hflags : hdrD.flags = c.flags) (hta : hdrD.target_address = c.address)
    (hbcnt : hdrD.byte_count = c.length) (harg : hdrD.argument = c.argument)
    (hrc : ReplayChunk c)
    (hnm : ∀ a ∈ st.list, blockMatches (hdrOf c) a = false) :
    mergeBlock hdrD ((c.data.getD []).map (fun b => b.getD 0) ++ tailb) st
      = ({ st with list := st.list ++ [c] }, (c.data.getD []).length) := by
  obtain ⟨hf4096, hFF, hFi, hFn, hIg, hIn, hAL, hArg, hdata⟩ := hrc
  have hnone : findMatchIdx hdrD st.list = none := by
    apply findMatchIdx_none
    intro a ha
    rw [blockMatches_fields hdrD (hdrOf c) a hflags (by rw [hbcnt]; rfl)
      (by rw [hta]; rfl)]
    exact hnm a ha
  rw [mergeBlock_fresh _ _ _ hnone]
  rcases c with ⟨ca, carg, cdata, clen, cfl⟩
  simp only at hflags hta hbcnt harg hAL hdata
  rcases cdata with _ | d
  · simp only [Option.getD_none, List.map_nil, List.nil_append, List.length_nil]
    by_cases hl : clen = 0
    · rw [extendChunk_fresh_zero _ _ (by rw [hbcnt, hl])]
      subst hl
      simp [newChunk, hta, harg, hflags]
    · have hfill : cfl &&& BFLAG_FILL ≠ 0 := by
        rcases hdata with hfill | h0
        · exact hfill
        · exact absurd h0 hl
      rw [extendChunk_fresh_fill _ _ (by rw [hflags]; exact hfill)
        (by rw [hbcnt]; omega) (by rw [hta, hbcnt]; omega)]
      simp [hta, harg, hbcnt, hflags]
  · obtain ⟨hfil0, hdlen, hpos, hsome⟩ := hdata
    simp only [Option.getD_some]
    have hml : (d.map (fun b => b.getD 0)).length = clen := by simp [hdlen]
    have happ := extendChunk_append hdrD (d.map (fun b => b.getD 0) ++ tailb)
      (newChunk hdrD)
      (by rw [hflags]; exact hfil0)
      (by show hdrD.target_address = hdrD.target_address + 0; omega)
      (by show hdrD.target_address + 0 + hdrD.byte_count < M32
          rw [hta, hbcnt]; omega)
      (by rw [hbcnt]; omega)
      (by rw [hbcnt]; simp [hdlen])
      (fun d' hd' => by simp [newChunk] at hd')
      (fun _ => rfl)
    rw [happ.1]
    have htake : (d.map (fun b => b.getD 0) ++ tailb).take hdrD.byte_count
        = d.map (fun b => b.getD 0) := by
      rw [hbcnt, ← hml]
      exact List.take_left _ _
    have hdd : ((newChunk hdrD).data.getD []
        ++ ((d.map (fun b => b.getD 0) ++ tailb).take hdrD.byte_count).map some)
        = d := by
      rw [htake]
      show [] ++ (d.map (fun b => b.getD 0)).map some = d
      rw [List.nil_append, map_getD_some d hsome]
    rw [hdd]
    simp [newChunk, hta, harg, hbcnt, hflags, hdlen]

/-- One loop iteration over the serialized block of a well-formed chunk that
matches nothing in the store: the chunk is recreated verbatim at the end of
the list and processing moves past its data bytes. -/
theorem replay_step (bcode hdrsign : Nat) (c : Chunk) (fuel : Nat)
    (tailb : List Nat) (st : LoopSt)
    (hbcd : bcode < 16) (hhs : hdrsign < 256) (hrc : ReplayChunk c)
    (hnm : ∀ a ∈ st.list, blockMatches (hdrOf c) a = false) :
    runLoop (fuel + 1)
      (encodeHeader ⟨bcode, c.flags, 0, hdrsign, c.address, c.length, c.argument⟩
        ++ ((c.data.getD []).map (fun b => b.getD 0) ++ tailb)) st
      = runLoop fuel tailb
          { st with list := st.list ++ [c], lastBcode := bcode,
                    lastHdrsign := hdrsign } := by
  have hrc2 := hrc
  obtain ⟨hf4096, hFF, hFi, hFn, hIg, hIn, hAL, hArg, -⟩ := hrc2
  have hdec := decodeHeader_encodeHeader
    ⟨bcode, c.flags, 0, hdrsign, c.address, c.length, c.argument⟩
    hbcd hf4096 hhs (by show c.address < M32; omega)
    (by show c.length < M32; omega) hArg
  have hfl : (decodeHeader (encodeHeader ⟨bcode, c.flags, 0, hdrsign, c.address,
      c.length, c.argument⟩)).flags = c.flags := by rw [hdec]
  have hbb : (decodeHeader (encodeHeader ⟨bcode, c.flags, 0, hdrsign, c.address,
      c.length, c.argument⟩)).bcode = bcode := by rw [hdec]
  have hhh : (decodeHeader (encodeHeader ⟨bcode, c.flags, 0, hdrsign, c.address,
      c.length, c.argument⟩)).hdrsign = hdrsign := by rw [hdec]
  have hta : (decodeHeader (encodeHeader ⟨bcode, c.flags, 0, hdrsign, c.address,
      c.length, c.argument⟩)).target_address = c.address := by rw [hdec]
  have hbcnt : (decodeHeader (encodeHeader ⟨bcode, c.flags, 0, hdrsign, c.address,
      c.length, c.argument⟩)).byte_count = c.length := by rw [hdec]
  have harg : (decodeHeader (encodeHeader ⟨bcode, c.flags, 0, hdrsign, c.address,
      c.length, c.argument⟩)).argument = c.argument := by rw [hdec]
  have helen := encodeHeader_length
    ⟨bcode, c.flags, 0, hdrsign, c.address, c.length, c.argument⟩
  rw [runLoop]
  have hlen2 : ¬ (encodeHeader ⟨bcode, c.flags, 0, hdrsign, c.address, c.length,
      c.argument⟩ ++ ((c.data.getD []).map (fun b => b.getD 0) ++ tailb)).length
      < 16 := by simp [helen]
  rw [if_neg hlen2]
  have htk : (encodeHeader ⟨bcode, c.flags, 0, hdrsign, c.address, c.length,
      c.argument⟩ ++ ((c.data.getD []).map (fun b => b.getD 0) ++ tailb)).take 16
      = encodeHeader ⟨bcode, c.flags, 0, hdrsign, c.address, c.length,
        c.argument⟩ := by
    rw [← helen]; exact List.take_left _ _
  have hdp : (encodeHeader ⟨bcode, c.flags, 0, hdrsign, c.address, c.length,
      c.argument⟩ ++ ((c.data.getD []).map (fun b => b.getD 0) ++ tailb)).drop 16
      = (c.data.getD []).map (fun b => b.getD 0) ++ tailb := by
    rw [← helen]; exact List.drop_left _ _
  have hxb : (xorAll (encodeHeader ⟨bcode, c.flags, 0, hdrsign, c.address,
      c.length, c.argument⟩) != 0) = false := by simp [xorAll_encodeHeader]
  have t1 : ((decodeHeader (encodeHeader ⟨bcode, c.flags, 0, hdrsign, c.address,
      c.length, c.argument⟩)).flags &&& (BFLAG_FIRST ||| BFLAG_FINAL) != 0)
      = false := by rw [hfl]; simp [hFF]
  have t2 : ((decodeHeader (encodeHeader ⟨bcode, c.flags, 0, hdrsign, c.address,
      c.length, c.argument⟩)).flags &&& BFLAG_FINAL != 0) = false := by
    rw [hfl]; simp [hFn]
  have t3 : ((decodeHeader (encodeHeader ⟨bcode, c.flags, 0, hdrsign, c.address,
      c.length, c.argument⟩)).flags &&& BFLAG_FIRST != 0) = false := by
    rw [hfl]; simp [hFi]
  have t4 : ((decodeHeader (encodeHeader ⟨bcode, c.flags, 0, hdrsign, c.address,
      c.length, c.argument⟩)).flags &&& BFLAG_IGNORE != 0) = false := by
    rw [hfl]; simp [hIg]
  have t5 : ((decodeHeader (encodeHeader ⟨bcode, c.flags, 0, hdrsign, c.address,
      c.length, c.argument⟩)).flags &&& BFLAG_INIT != 0) = false := by
    rw [hfl]; simp [hIn]
  have hmerge := replay_merge
    (decodeHeader (encodeHeader ⟨bcode, c.flags, 0, hdrsign, c.address, c.length,
      c.argument⟩)) c tailb
    { st with lastBcode := bcode, lastHdrsign := hdrsign }
    hfl hta hbcnt harg hrc (fun a ha => hnm a ha)
  have hdrop : ((c.data.getD []).map (fun b => b.getD 0) ++ tailb).drop
      (c.data.getD []).length = tailb := by
    rw [show (c.data.getD []).length
      = ((c.data.getD []).map (fun b => b.getD 0)).length from by simp]
    exact List.drop_left _ _
  simp only [htk, hdp, hxb, Bool.false_eq_true, if_false, t1, t2, t3, t4, t5,
    hbb, hhh, hmerge, hdrop]

theorem chunkStream_length_ge (bcode hdrsign : Nat) (cs : List Chunk) :
    cs.length ≤ (chunkStream bcode hdrsign cs).length := by
  induction cs with
  | nil => simp [chunkStream]
  | cons c cs ih =>
      rw [chunkStream]
      simp only [List.length_append, List.length_cons, encodeHeader_length]
      omega

/-- Replaying the serialized blocks of a pairwise non-matching list of
well-formed chunks recreates exactly that list, appended to the store. -/
theorem replay_chunks (bcode hdrsign : Nat) (hbcd : bcode < 16)
    (hhs : hdrsign < 256) (ds : List Chunk) :
    ∀ (fuel : Nat) (tail : List Nat) (st : LoopSt),
      (∀ c ∈ ds, ReplayChunk c) →
      (∀ c ∈ ds, ∀ a ∈ st.list, blockMatches (hdrOf c) a = false) →
      List.Pairwise (fun a b => blockMatches (hdrOf b) a = false) ds →
      st.lastBcode = bcode → st.lastHdrsign = hdrsign →
      runLoop (fuel + ds.length) (chunkStream bcode hdrsign ds ++ tail) st
        = runLoop fuel tail { st with list := st.list ++ ds } := by
  induction ds with
  | nil =>
      intro fuel tail st _ _ _ _ _
      have hst : ({ st with list := st.list ++ [] } : LoopSt) = st := by
        cases st; simp
      rw [chunkStream, hst]
      simp
  | cons c ds ih =>
      intro fuel tail st hrc hnm hpw hlb hlh
      obtain ⟨hhead, htail⟩ := List.pairwise_cons.mp hpw
      rw [chunkStream]
      simp only [List.length_cons]
      rw [show fuel + (ds.length + 1) = (fuel + ds.length) + 1 from by omega,
        List.append_assoc, List.append_assoc]
      rw [replay_step bcode hdrsign c (fuel + ds.length)
        (chunkStream bcode hdrsign ds ++ tail) st hbcd hhs (hrc c (by simp))
        (fun a ha => hnm c (by simp) a ha)]
      rw [LoopSt_update_last st (st.list ++ [c]) bcode hdrsign hlb hlh]
      rw [ih fuel tail { st with list := st.list ++ [c] }
        (fun c' hc' => hrc c' (by simp [hc']))
        (fun c' hc' a ha => by
          rcases List.mem_append.mp ha with h | h
          · exact hnm c' (by simp [hc']) a h
          · rw [List.mem_singleton.mp h]
            exact hhead c' hc')
        htail (by simpa using hlb) (by simpa using hlh)]
      have : (st.list ++ [c]) ++ ds = st.list ++ (c :: ds) := by
        rw [List.append_assoc]
        rfl
      rw [this]

theorem map_some_getD_id (l : List Nat) : (l.map some).map (fun b => b.getD 0) = l := by
  induction l with
  | nil => rfl
  | cons x t ih => simp [ih]

theorem chunkBlockBytes_stream (bcode hdrsign : Nat) (cs : List Chunk) :
    (∀ c ∈ cs, ReplayChunk c) →
    (chunkBlockBytes bcode hdrsign cs).map (fun b => b.getD 0)
      = chunkStream bcode hdrsign cs := by
  induction cs with
  | nil => intro _; rfl
  | cons c cs ih =>
      intro hwf
      have h2 : (chunkData c).map (fun b => b.getD 0)
          = (c.data.getD []).map (fun b => b.getD 0) := by
        obtain ⟨-, -, -, -, -, -, -, -, hdata⟩ := hwf c (by simp)
        rcases hd : c.data with _ | d
        · simp [chunkData, hd]
        · rw [hd] at hdata
          obtain ⟨-, hdlen, -, -⟩ := hdata
          simp only [chunkData, hd, Option.getD_some]
          rw [← hdlen, List.take_left]
      rw [chunkBlockBytes, chunkStream]
      simp only [List.map_append, h2, map_some_getD_id,
        ih (fun c' hc' => hwf c' (by simp [hc']))]

/-- The bytes a flush writes, as raw naturals: the encoded leading header
followed by the chunk stream (well-formed chunks leave no byte
indeterminate). -/
theorem writeImage_stream (cs : List Chunk) (s : ImageSettings)
    (hwf : ∀ c ∈ cs, ReplayChunk c) :
    (writeImage cs s).map (fun b => b.getD 0)
      = encodeHeader ⟨s.bcode, BFLAG_IGNORE ||| BFLAG_FIRST, 0, s.hdrsign,
          s.entry_point, 0, imagePosition cs⟩ ++ chunkStream s.bcode s.hdrsign cs := by
  rw [writeImage, List.map_append, map_some_getD_id,
    chunkBlockBytes_stream s.bcode s.hdrsign cs hwf]

/-- CLAIM C8 is false on the code (counterexample).  First run: blocks at
0x1000+4, 0x1008+4, 0x1004+4 flush as TWO chunks ([0x1000,0x1008) and
[0x1008,0x100c)), the third block having glued the first chunk's end to the
second chunk's address.  Second run on the produced output: the second
chunk's header now matches the closed interval of the first chunk, so the
two merge into ONE chunk — the chunk-level result differs (further merging
occurs), contradicting idempotence. -/
theorem c8_counterexample :
    (ldrshrink adjacentIn st0).2.2
      = [[⟨0x1000, 0, some [some 1, some 2, some 3, some 4, some 9, some 10,
            some 11, some 12], 8, 0⟩,
          ⟨0x1008, 0, some [some 5, some 6, some 7, some 8], 4, 0⟩]] ∧
    (ldrshrink ((ldrshrink adjacentIn st0).2.1.map (fun b => b.getD 0)) st0).2.2
      = [[⟨0x1000, 0, some [some 1, some 2, some 3, some 4, some 9, some 10,
            some 11, some 12, some 5, some 6, some 7, some 8], 12, 0⟩]] := by
  constructor <;> decide

/-- CLAIM C8 amended (proved).  Re-running the program on a flushed image
(followed by the trailing Final header) reproduces the identical chunk-level
result PROVIDED the flushed chunks are replay-stable: no chunk's serialized
header matches an earlier chunk under the merge scan (otherwise the second
run merges further, as in the counterexample), every chunk is well-formed
(12-bit flags without INIT/IGNORE/FIRST/FINAL, in-range arithmetic, fully
materialized buffers of exactly `length` bytes or data-less Fill/empty
chunks), and the store is non-empty.  Then the second run flushes exactly
the same chunk list, whatever indeterminate initial state it starts from. -/
theorem c8_amended (s : ImageSettings) (cs : List Chunk) (tb th te : Nat)
    (s0 : ImageSettings) (b0 h0 : Nat)
    (hsb : s.bcode < 16) (hsh : s.hdrsign < 256) (hse : s.entry_point < M32)
    (himg : imagePosition cs < M32)
    (htb : tb < 16) (hth : th < 256) (hte : te < M32)
    (hrc : ∀ c ∈ cs, ReplayChunk c)
    (hpw : List.Pairwise (fun a b => blockMatches (hdrOf b) a = false) cs)
    (hne : cs ≠ []) :
    (ldrshrink ((writeImage cs s).map (fun b => b.getD 0)
        ++ encodeHeader ⟨tb, BFLAG_FINAL, 0, th, te, 0, 0⟩)
      (initSt s0 b0 h0)).2.2 = [cs] := by
  have hM : (0:Nat) < M32 := by norm_num [M32]
  have hdecL := decodeHeader_encodeHeader
    ⟨s.bcode, BFLAG_IGNORE ||| BFLAG_FIRST, 0, s.hdrsign, s.entry_point, 0,
      imagePosition cs⟩ hsb
    (by show (BFLAG_IGNORE ||| BFLAG_FIRST : Nat) < 4096; decide) hsh hse hM himg
  have hdecT := decodeHeader_encodeHeader ⟨tb, BFLAG_FINAL, 0, th, te, 0, 0⟩
    htb (by show (BFLAG_FINAL : Nat) < 4096; decide) hth hte hM hM
  have hfirstL : (decodeHeader (encodeHeader ⟨s.bcode,
      BFLAG_IGNORE ||| BFLAG_FIRST, 0, s.hdrsign, s.entry_point, 0,
      imagePosition cs⟩)).flags &&& BFLAG_FIRST ≠ 0 := by
    rw [hdecL]
    show (BFLAG_IGNORE ||| BFLAG_FIRST) &&& BFLAG_FIRST ≠ 0
    decide
  have hfinalL : (decodeHeader (encodeHeader ⟨s.bcode,
      BFLAG_IGNORE ||| BFLAG_FIRST, 0, s.hdrsign, s.entry_point, 0,
      imagePosition cs⟩)).flags &&& BFLAG_FINAL = 0 := by
    rw [hdecL]
    show (BFLAG_IGNORE ||| BFLAG_FIRST) &&& BFLAG_FINAL = 0
    decide
  have hfinT : (decodeHeader (encodeHeader ⟨tb, BFLAG_FINAL, 0, th, te, 0,
      0⟩)).flags &&& BFLAG_FINAL ≠ 0 := by
    rw [hdecT]
    show BFLAG_FINAL &&& BFLAG_FINAL ≠ 0
    decide
  have hcsL := chunkStream_length_ge s.bcode s.hdrsign cs
  have hinput : (writeImage cs s).map (fun b => b.getD 0)
      ++ encodeHeader ⟨tb, BFLAG_FINAL, 0, th, te, 0, 0⟩
      = encodeHeader ⟨s.bcode, BFLAG_IGNORE ||| BFLAG_FIRST, 0, s.hdrsign,
          s.entry_point, 0, imagePosition cs⟩
        ++ (chunkStream s.bcode s.hdrsign cs
          ++ (encodeHeader ⟨tb, BFLAG_FINAL, 0, th, te, 0, 0⟩ ++ [])) := by
    rw [writeImage_stream cs s hrc]
    simp [List.append_assoc]
  have hN : ((writeImage cs s).map (fun b => b.getD 0)
      ++ encodeHeader ⟨tb, BFLAG_FINAL, 0, th, te, 0, 0⟩).length
      = ((chunkStream s.bcode s.hdrsign cs).length + 31) + 1 := by
    rw [hinput]
    simp [encodeHeader_length]
    omega
  have hrun : runLoop ((writeImage cs s).map (fun b => b.getD 0)
        ++ encodeHeader ⟨tb, BFLAG_FINAL, 0, th, te, 0, 0⟩).length
      ((writeImage cs s).map (fun b => b.getD 0)
        ++ encodeHeader ⟨tb, BFLAG_FINAL, 0, th, te, 0, 0⟩)
      (initSt s0 b0 h0)
      = .fin (doFlush ⟨cs, ⟨s.hdrsign, s.bcode, s.entry_point⟩, tb, th, [], []⟩) := by
    rw [hN, hinput]
    rw [step_first ((chunkStream s.bcode s.hdrsign cs).length + 31)
      (initSt s0 b0 h0) _ _ (encodeHeader_length _) (xorAll_encodeHeader _)
      hfirstL hfinalL]
    rw [hdecL]
    show runLoop ((chunkStream s.bcode s.hdrsign cs).length + 31)
      (chunkStream s.bcode s.hdrsign cs
        ++ (encodeHeader ⟨tb, BFLAG_FINAL, 0, th, te, 0, 0⟩ ++ []))
      ⟨[], ⟨s.hdrsign, s.bcode, s.entry_point⟩, s.bcode, s.hdrsign, [], []⟩ = _
    rw [show (chunkStream s.bcode s.hdrsign cs).length + 31
      = (((chunkStream s.bcode s.hdrsign cs).length + 31 - cs.length)
        + cs.length) from by omega]
    rw [replay_chunks s.bcode s.hdrsign hsb hsh cs _ _ _
      hrc (fun c _ a ha => absurd ha (List.not_mem_nil a)) hpw rfl rfl]
    show runLoop ((chunkStream s.bcode s.hdrsign cs).length + 31 - cs.length)
      (encodeHeader ⟨tb, BFLAG_FINAL, 0, th, te, 0, 0⟩ ++ [])
      ⟨cs, ⟨s.hdrsign, s.bcode, s.entry_point⟩, s.bcode, s.hdrsign, [], []⟩ = _
    rw [show (chunkStream s.bcode s.hdrsign cs).length + 31 - cs.length
      = ((chunkStream s.bcode s.hdrsign cs).length + 30 - cs.length) + 1
      from by omega]
    rw [step_final _ _ _ _ (encodeHeader_length _) (xorAll_encodeHeader _) hfinT]
    rw [hdecT]
    show RunResult.fin (if cs ≠ [] then _ else _) = _
    rw [if_pos hne]
  rw [ldrshrink, hrun]
  simp [doFlush]

/-- Closed witness for the amended C8: a one-chunk image replays to the same
one-chunk flush. -/
theorem c8_witness :
    (ldrshrink ((writeImage [⟨0x1000, 0, some [some 7], 1, 0⟩]
          ⟨0xAD, 1, 0x1000⟩).map (fun b => b.getD 0)
        ++ encodeHeader ⟨1, BFLAG_FINAL, 0, 0xAD, 0x1000, 0, 0⟩)
      (initSt ⟨0, 0, 0⟩ 0 0)).2.2 = [[⟨0x1000, 0, some [some 7], 1, 0⟩]] :=
  c8_amended ⟨0xAD, 1, 0x1000⟩ [⟨0x1000, 0, some [some 7], 1, 0⟩] 1 0xAD 0x1000
    ⟨0, 0, 0⟩ 0 0 (by decide) (by decide) (by decide) (by decide) (by decide)
    (by decide) (by decide)
    (fun c hc => by rw [List.mem_singleton.mp hc]; decide)
    (by simp) (by simp)

end Ldrshrink
